import Mathlib

/-!
Verification of the dissimilarity/distance-matrix core of this repository:
the matrix data model ("DissimilarityMatrix"/"DistanceMatrix"), the "dm"
text-format reader ("parse", entry points "dm_to_DissimilarityMatrix" and
"dm_to_DistanceMatrix") and the writer ("serialize").  The implementation
module itself is not part of the source tree (only its test suite is), so
every operation below is modelled from the specification's grammar and
contracts and is pinned against the concrete fixtures of the test suite
("DM_1x1", "DM_2x2", "DM_2x2_ASYM", "DM_3x3", "DM_3x3_WHITESPACE",
"INVALID_1" .. "INVALID_5").

Grid values are "opaque reals" exchanged through a decimal text format; they
are embedded as explicit numerator/denominator pairs ("Val") with exact
cross-multiplication equality, so that every operation is executable and a
denominator of zero plays the role of the format's non-finite values.
-/

namespace Skbio

/-- A decidable equality instance for "Except", used to evaluate parser
results on concrete inputs. -/
instance {ε α : Type} [DecidableEq ε] [DecidableEq α] : DecidableEq (Except ε α) := fun a b =>
  match a, b with
  | .ok x, .ok y =>
    if h : x = y then .isTrue (by rw [h]) else .isFalse (fun hh => by cases hh; exact h rfl)
  | .error e, .error f =>
    if h : e = f then .isTrue (by rw [h]) else .isFalse (fun hh => by cases hh; exact h rfl)
  | .ok _, .error _ => .isFalse (fun hh => Except.noConfusion hh)
  | .error _, .ok _ => .isFalse (fun hh => Except.noConfusion hh)

/-! ## Character and line utilities -/

/-- A line of text, as a list of characters. -/
abbrev Line := List Char

/-- Whitespace characters, as recognised by the format's line/token
stripping (space, tab, newline, carriage return, vertical tab, form feed). -/
def isWs (c : Char) : Bool :=
  c = ' ' || c = '\t' || c = '\n' || c = '\x0d' || c = '\x0b' || c = '\x0c'

/-- Strip leading and trailing whitespace from a character list. -/
def stripChars (l : List Char) : List Char :=
  ((l.dropWhile isWs).reverse.dropWhile isWs).reverse

/-- Split a character list on a separator character.  Always returns at
least one (possibly empty) piece; a trailing separator yields a trailing
empty piece. -/
def splitOnChar (sep : Char) : List Char → List (List Char)
  | [] => [[]]
  | c :: cs =>
    if c = sep then [] :: splitOnChar sep cs
    else
      match splitOnChar sep cs with
      | [] => [[c]]
      | t :: ts => (c :: t) :: ts

/-- Split into tab-separated tokens. -/
def splitTab (l : Line) : List Line := splitOnChar '\t' l

/-- Split a character stream into lines at newline characters. -/
def splitLines (l : List Char) : List Line := splitOnChar '\n' l

/-- Join token lists with a tab between consecutive tokens. -/
def intercalateTab : List Line → Line
  | [] => []
  | [x] => x
  | x :: xs => x ++ '\t' :: intercalateTab xs

/-- Join lines, terminating every line with a newline character. -/
def joinNL : List Line → List Char
  | [] => []
  | l :: ls => l ++ '\n' :: joinNL ls

/-- A line is blank when it is empty or contains only whitespace. -/
def isBlank (l : Line) : Bool := l.all isWs

/-- A line is a comment when its first character after leading whitespace
is a number sign. -/
def isComment (l : Line) : Bool :=
  (l.dropWhile isWs).headD ' ' = '#'

/-! ## Decimal number reading and writing -/

/-- Numeric value of a decimal digit character. -/
def digitVal (c : Char) : Nat := c.toNat - 48

/-- Value of a big-endian string of decimal digit characters. -/
def digitsVal (cs : List Char) : Nat := cs.foldl (fun a c => a * 10 + digitVal c) 0

/-- All characters are decimal digits. -/
def allDigits (cs : List Char) : Bool := cs.all Char.isDigit

/-- Big-endian decimal digit characters of a natural number, driven by
explicit fuel (the fuel only needs to dominate the number of digits). -/
def natDigitsAux : Nat → Nat → List Char
  | 0, _ => []
  | fuel + 1, n =>
    if n < 10 then [Char.ofNat (n + 48)]
    else natDigitsAux fuel (n / 10) ++ [Char.ofNat (n % 10 + 48)]

/-- Big-endian decimal digit characters of a natural number. -/
def natStr (n : Nat) : List Char := natDigitsAux (n + 1) n

/-- Left-pad a digit string with zeros to the requested width. -/
def padZeros (k : Nat) (cs : List Char) : List Char :=
  List.replicate (k - cs.length) '0' ++ cs

/-- Grid values: exact rationals as numerator/denominator pairs.  A zero
denominator stands for the non-finite values of the source's numeric
domain. -/
structure Val where
  num : Int
  den : Nat
  deriving DecidableEq

/-- Exact numeric equality of two values, by cross multiplication. -/
def valEq (a b : Val) : Bool := a.num * (b.den : Int) = b.num * (a.den : Int)

/-- The value zero. -/
def valZero : Val := ⟨0, 1⟩

/-- Multiplicity of a factor in a number, driven by explicit fuel. -/
def multCount (p : Nat) : Nat → Nat → Nat
  | 0, _ => 0
  | fuel + 1, n => if n % p = 0 && p ≤ n then multCount p fuel (n / p) + 1 else 0

/-- Number of decimal places needed to write a value exactly, when its
denominator divides a power of ten. -/
def decExp (v : Val) : Nat := max (multCount 2 v.den v.den) (multCount 5 v.den v.den)

/-- A value is decimal when it is finite and can be written exactly with
"decExp" decimal places.  Every value of the source's numeric domain
(binary floating point) is decimal. -/
def isDecimal (v : Val) : Bool :=
  v.den ≠ 0 && (v.num.natAbs * 10 ^ decExp v) % v.den = 0

/-- Render a value as decimal text, with a minus sign for negative values
and "decExp" digits after the decimal point. -/
def showValue (v : Val) : List Char :=
  let k := decExp v
  let a := v.num.natAbs * 10 ^ k / v.den
  (if v.num < 0 then ['-'] else []) ++
    natStr (a / 10 ^ k) ++
    (if k = 0 then [] else '.' :: padZeros k (natStr (a % 10 ^ k)))

/-- The ten decimal digit characters. -/
def digitChars : List Char := ['0', '1', '2', '3', '4', '5', '6', '7', '8', '9']

/-- Read an unsigned decimal numeral from the pieces of a token around its
decimal points: either a single all-digit piece, or an integer piece and a
fractional piece with at least one digit between them. -/
def unsignedOfParts (parts : List (List Char)) : Option Val :=
  if parts.length = 1 then
    if parts.headD [] ≠ [] && allDigits (parts.headD []) then
      some ⟨(digitsVal (parts.headD []) : Int), 1⟩
    else none
  else if parts.length = 2 then
    if (parts.headD [] ≠ [] || parts.getD 1 [] ≠ []) && allDigits (parts.headD [])
        && allDigits (parts.getD 1 []) then
      some ⟨((digitsVal (parts.headD []) * 10 ^ (parts.getD 1 []).length
          + digitsVal (parts.getD 1 []) : Nat) : Int), 10 ^ (parts.getD 1 []).length⟩
    else none
  else none

/-- Read an unsigned decimal numeral: an integer part, optionally followed
by a decimal point and a fractional part; at least one digit overall. -/
def parseUnsigned (t : List Char) : Option Val :=
  unsignedOfParts (splitOnChar '.' t)

/-- Read a data value token as a real number: optional surrounding
whitespace, optional sign, decimal numeral. -/
def parseValue (t : List Char) : Option Val :=
  if (stripChars t).headD ' ' = '-' then
    (parseUnsigned (stripChars t).tail).map (fun v => ⟨-v.num, v.den⟩)
  else if (stripChars t).headD ' ' = '+' then parseUnsigned (stripChars t).tail
  else parseUnsigned (stripChars t)

/-- Read a list of value tokens, failing if any token fails. -/
def parseValues : List Line → Option (List Val)
  | [] => some []
  | t :: ts =>
    match parseValue t, parseValues ts with
    | some v, some vs => some (v :: vs)
    | _, _ => none

/-! ## Matrix model

Modelled from the spec: the matrix data model and its construction-time
validation live in a module (the distance-matrix package) that is not part
of the source tree; only its test suite is.  The definitions follow the
data-model section of the specification: an ordered label sequence plus a
square grid, validated atomically, with the distance variant adding the
symmetry invariant and reporting its violation as a distinct error kind. -/

/-- Reason codes of the syntactic format errors. -/
inductive FormatReason where
  | emptyInput
  | missingData
  | extraData
  | mismatchedId
  | columnCount
  | badValue
  deriving DecidableEq

/-- Reason codes of the semantic validation errors of direct construction. -/
inductive ValidationReason where
  | nonSquare
  | duplicateLabel
  | nonZeroDiagonal
  | nonFinite
  | empty
  deriving DecidableEq

/-- The error taxonomy: syntactic format errors, semantic validation
errors, and the symmetry error of the distance variant as a distinct
kind. -/
inductive DMError where
  | format (r : FormatReason)
  | validation (r : ValidationReason)
  | symmetry
  deriving DecidableEq

/-- Modelled from the spec: an immutable pair of an ordered label sequence
and a square numeric grid.  The distance variant shares this representation
and differs only in its construction-time validation strategy. -/
structure DissimilarityMatrix where
  labels : List String
  grid : List (List Val)
  deriving DecidableEq

/-- Grid entry at a row/column index pair (zero default out of range). -/
def valAt (grid : List (List Val)) (i j : Nat) : Val :=
  (grid.getD i []).getD j valZero

/-- The grid is square with the given side length. -/
def squareB (n : Nat) (grid : List (List Val)) : Bool :=
  grid.length = n && grid.all (fun r => decide (r.length = n))

/-- Every grid entry is finite. -/
def finiteB (grid : List (List Val)) : Bool :=
  grid.all (fun r => r.all (fun v => decide (v.den ≠ 0)))

/-- Every diagonal entry equals zero. -/
def hollowB (grid : List (List Val)) : Bool :=
  (List.range grid.length).all (fun i => valEq (valAt grid i i) valZero)

/-- All labels are pairwise distinct. -/
def distinctB : List String → Bool
  | [] => true
  | l :: ls => !(decide (l ∈ ls)) && distinctB ls

/-- The grid is symmetric. -/
def symmB (grid : List (List Val)) : Bool :=
  (List.range grid.length).all fun i =>
    (List.range grid.length).all fun j => valEq (valAt grid i j) (valAt grid j i)

/-- Modelled from the spec: construction of a dissimilarity matrix
validates the invariants (square grid matching the label count, finite
entries, zero diagonal, distinct labels, at least one label) before any
instance is returned, classifying each violation. -/
def constructDissim (labels : List String) (grid : List (List Val)) :
    Except DMError DissimilarityMatrix :=
  if labels.length = 0 then .error (.validation .empty)
  else if !squareB labels.length grid then .error (.validation .nonSquare)
  else if !finiteB grid then .error (.validation .nonFinite)
  else if !hollowB grid then .error (.validation .nonZeroDiagonal)
  else if !distinctB labels then .error (.validation .duplicateLabel)
  else .ok ⟨labels, grid⟩

/-- Modelled from the spec: the distance variant validates the
dissimilarity invariants and additionally symmetry, whose violation is the
distinct symmetry error. -/
def constructDist (labels : List String) (grid : List (List Val)) :
    Except DMError DissimilarityMatrix :=
  match constructDissim labels grid with
  | .error e => .error e
  | .ok M => if !symmB grid then .error .symmetry else .ok M

/-- Element-for-element equality of two value rows. -/
def eqVals : List Val → List Val → Bool
  | [], [] => true
  | x :: xs, y :: ys => valEq x y && eqVals xs ys
  | _, _ => false

/-- Element-for-element equality of two grids. -/
def eqGrid : List (List Val) → List (List Val) → Bool
  | [], [] => true
  | r :: rs, s :: ss => eqVals r s && eqGrid rs ss
  | _, _ => false

/-- Element-for-element equality of two label sequences. -/
def eqLabels : List String → List String → Bool
  | [], [] => true
  | x :: xs, y :: ys => decide (x = y) && eqLabels xs ys
  | _, _ => false

/-- Modelled from the spec: two matrices are equal iff their label
sequences are equal element-for-element in order and their grids are equal
element-for-element with exact numeric equality. -/
def equals (a b : DissimilarityMatrix) : Bool :=
  eqLabels a.labels b.labels && eqGrid a.grid b.grid

/-- Index of a label in the ordered label sequence. -/
def labelIndex (labels : List String) (id : String) : Option Nat :=
  labels.findIdx? (fun l => l = id)

/-- Modelled from the spec: read-only accessor for the value at a pair of
row/column identifiers. -/
def valueById (M : DissimilarityMatrix) (a b : String) : Option Val :=
  match labelIndex M.labels a, labelIndex M.labels b with
  | some i, some j => some (valAt M.grid i j)
  | _, _ => none

/-! ## Format reader

Modelled from the spec: the "dm"-format reader module is not part of the
source tree; only its test suite is.  The definitions follow the grammar
of the format-parser section of the specification: blank lines are ignored
everywhere, comment lines only during the leading skip phase, the first
remaining line is the tab-separated header (an optional single leading
empty token is discarded), and exactly one data row per header token must
follow, each carrying its label and exactly as many values as there are
labels. -/

/-- Skip blank and comment lines; return the header line and the remaining
lines, if any line qualifies. -/
def seekHeader : List Line → Option (Line × List Line)
  | [] => none
  | l :: rest =>
    if isBlank l || isComment l then seekHeader rest else some (l, rest)

/-- Drop a single leading empty token, as produced by an optional leading
tab on the header line. -/
def dropLeadingEmpty : List String → List String
  | [] => []
  | l :: ls => if l = "" then ls else l :: ls

/-- Labels declared by a header line: tab-separated tokens, each stripped
of surrounding whitespace, with a single leading empty token discarded. -/
def headerLabels (l : Line) : List String :=
  dropLeadingEmpty ((splitTab l).map (fun t => String.mk (stripChars t)))

/-- Read one data row against its expected label: the first tab-separated
token is the row label (stripped), the remaining tokens are the values and
must number exactly the header length. -/
def parseRow (n : Nat) (e : String) (l : Line) : Except FormatReason (List Val) :=
  if String.mk (stripChars ((splitTab l).headD [])) ≠ e then .error .mismatchedId
  else if ((splitTab l).tail).length < n then .error .missingData
  else if n < ((splitTab l).tail).length then .error .columnCount
  else
    match parseValues ((splitTab l).tail) with
    | none => .error .badValue
    | some row => .ok row

/-- Read the data rows, one per remaining expected label, skipping blank
lines; a non-blank line after all rows is extra data, and end of input
before all rows is missing data. -/
def parseRowsGo (n : Nat) : List String → List Line → Except FormatReason (List (List Val))
  | [], [] => .ok []
  | [], l :: rest =>
    if isBlank l then parseRowsGo n [] rest else .error .extraData
  | _ :: _, [] => .error .missingData
  | e :: es, l :: rest =>
    if isBlank l then parseRowsGo n (e :: es) rest
    else
      match parseRow n e l with
      | .error r => .error r
      | .ok row =>
        match parseRowsGo n es rest with
        | .error r => .error r
        | .ok rows => .ok (row :: rows)

/-- Read a full line sequence in the "dm" format. -/
def parseLines (lines : List Line) : Except FormatReason (List String × List (List Val)) :=
  match seekHeader lines with
  | none => .error .emptyInput
  | some (h, rest) =>
    let labels := headerLabels h
    if labels.isEmpty then .error .emptyInput
    else
      match parseRowsGo labels.length labels rest with
      | .error r => .error r
      | .ok grid => .ok (labels, grid)

/-- Read a character stream in the "dm" format into label and grid data,
or fail with a format error. -/
def parse (s : String) : Except FormatReason (List String × List (List Val)) :=
  parseLines (splitLines s.data)

/-- Modelled from the spec: parsing entry point producing a validated
dissimilarity matrix. -/
def dm_to_DissimilarityMatrix (s : String) : Except DMError DissimilarityMatrix :=
  match parse s with
  | .error r => .error (.format r)
  | .ok (labels, grid) => constructDissim labels grid

/-- Modelled from the spec: parsing entry point producing a validated
distance matrix. -/
def dm_to_DistanceMatrix (s : String) : Except DMError DissimilarityMatrix :=
  match parse s with
  | .error r => .error (.format r)
  | .ok (labels, grid) => constructDist labels grid

/-! ## Format writer

Modelled from the spec: the writer module is not part of the source tree.
Per the writer section of the specification it produces a header line of
the labels joined by tabs, preceded by one leading tab, then one line per
label holding the label followed by the tab-separated grid values of its
row. -/

/-- The serialized header line. -/
def headerLine (labels : List String) : Line :=
  '\t' :: intercalateTab (labels.map String.data)

/-- One serialized data row. -/
def rowLine (label : String) (row : List Val) : Line :=
  intercalateTab (label.data :: row.map showValue)

/-- The serialized data rows, one per label. -/
def rowLines : List String → List (List Val) → List Line
  | l :: ls, r :: rs => rowLine l r :: rowLines ls rs
  | _, _ => []

/-- All serialized lines of a matrix. -/
def serializeLines (M : DissimilarityMatrix) : List Line :=
  headerLine M.labels :: rowLines M.labels M.grid

/-- Serialize a matrix into "dm"-format text, every line terminated by a
newline character. -/
def serialize (M : DissimilarityMatrix) : String :=
  String.mk (joinNL (serializeLines M))

/-- True when construction succeeds, i.e. the result is not an error. -/
def isOk {ε α : Type} : Except ε α → Bool
  | .ok _ => true
  | .error _ => false

/-- True when the result is a syntactic format error. -/
def isFormatErr {α : Type} : Except DMError α → Bool
  | .error (.format _) => true
  | _ => false

/-- A matrix passes the dissimilarity validation. -/
def validB (M : DissimilarityMatrix) : Bool :=
  isOk (constructDissim M.labels M.grid)

/-- Both results are successfully constructed matrices and the matrices
are equal. -/
def okEquals : Except DMError DissimilarityMatrix → Except DMError DissimilarityMatrix → Bool
  | .ok a, .ok b => equals a b
  | _, _ => false

/-! ## The test fixtures of the source tree -/

/-- 1x1 fixture. -/
def DM_1x1 : String := "\ta\na\t0.0\n"

/-- Symmetric 2x2 fixture. -/
def DM_2x2 : String := "\ta\tb\na\t0.0\t0.123\nb\t0.123\t0.0\n"

/-- Asymmetric 2x2 fixture, with a negative off-diagonal entry. -/
def DM_2x2_ASYM : String := "\ta\tb\na\t0.0\t1.0\nb\t-2.0\t0.0\n"

/-- 3x3 fixture; its header has no leading tab and its final row has no
terminating newline. -/
def DM_3x3 : String := "a\tb\tc\na\t0.0\t0.01\t4.2\nb\t0.01\t0.0\t12.0\nc\t4.2\t12.0\t0.0"

/-- 3x3 fixture with comment lines before the header and whitespace-only
lines throughout, and with irregular whitespace around tokens. -/
def DM_3x3_WHITESPACE : String :=
  "# foo\n      \t \t \n #bar\n\n\n\ta\t b \tc\na  \t0.0\t0.01\t4.2\n     \t\nb\t0.01\t0.0\t12.0\n\n\t     \t\n\nc\t4.2\t12.0\t0.0\n\n   \t \n\t\t\t\n "

/-- Invalid fixture: a row with fewer values than labels. -/
def INVALID_1 : String := "a\tb\na\t0\t1\nb\t1"

/-- Invalid fixture: mismatched row label. -/
def INVALID_2 : String := "a\tb\nb\t0\t1\na\t1\t0"

/-- Invalid fixture: extra data lines after all rows. -/
def INVALID_3 : String := "\ta\tb\na\t0\t1\nb\t1\t0\n  \nfoo\n\n\n"

/-- Invalid fixture: missing data lines. -/
def INVALID_4 : String := "\ta\tb\na\t0\t1\n  \n"

/-- Invalid fixture: no data lines. -/
def INVALID_5 : String := "\ta\tb\n"

/-- Integer-valued grid entry. -/
def valInt (n : Int) : Val := ⟨n, 1⟩

/-- The expected 3x3 grid data of the 3x3 fixtures. -/
def dm3x3Data : List (List Val) :=
  [[valZero, ⟨1, 100⟩, ⟨42, 10⟩], [⟨1, 100⟩, valZero, ⟨12, 1⟩], [⟨42, 10⟩, ⟨12, 1⟩, valZero]]

/-- First component of a successful parse: the parsed label sequence. -/
def parsedLabels (e : Except FormatReason (List String × List (List Val))) :
    Option (List String) :=
  e.toOption.map Prod.fst

/-- Value accessor through a construction result. -/
def okValueById (e : Except DMError DissimilarityMatrix) (a b : String) : Option Val :=
  match e with
  | .ok M => valueById M a b
  | .error _ => none

/-! ## Invariants as propositions, and further derived definitions -/

/-- The grid is square with the given side length (spec invariant 1). -/
def SquareGrid (n : Nat) (grid : List (List Val)) : Prop :=
  grid.length = n ∧ ∀ r ∈ grid, r.length = n

/-- Every grid entry is a finite number (spec data model: grid of finite
real numbers). -/
def FiniteGrid (grid : List (List Val)) : Prop :=
  ∀ r ∈ grid, ∀ v ∈ r, v.den ≠ 0

/-- Every diagonal entry equals zero (spec invariant 2, hollowness). -/
def Hollow (grid : List (List Val)) : Prop :=
  ∀ i, i < grid.length → valEq (valAt grid i i) valZero = true

/-- The grid is symmetric (spec invariant 5). -/
def SymmGrid (grid : List (List Val)) : Prop :=
  ∀ i, i < grid.length → ∀ j, j < grid.length →
    valEq (valAt grid i j) (valAt grid j i) = true

/-- The dissimilarity-matrix invariants 1-4 of the data model, together
with finiteness of all entries. -/
def DissimInv (labels : List String) (grid : List (List Val)) : Prop :=
  1 ≤ labels.length ∧ SquareGrid labels.length grid ∧ FiniteGrid grid ∧
    Hollow grid ∧ labels.Nodup

/-- Element-for-element equality of two grids as a proposition: same
shape, and exact numeric equality at every position. -/
def GridEquiv (g h : List (List Val)) : Prop :=
  g.length = h.length ∧
    ∀ (i : Nat) (hg : i < g.length) (hh : i < h.length),
      (g.get ⟨i, hg⟩).length = (h.get ⟨i, hh⟩).length ∧
        ∀ (j : Nat) (hgj : j < (g.get ⟨i, hg⟩).length)
          (hhj : j < (h.get ⟨i, hh⟩).length),
          valEq ((g.get ⟨i, hg⟩).get ⟨j, hgj⟩) ((h.get ⟨i, hh⟩).get ⟨j, hhj⟩) = true

/-- Reorder the labels of a matrix by an index permutation, permuting the
grid correspondingly in both dimensions. -/
def matPerm (M : DissimilarityMatrix)
    (σ : Fin M.labels.length → Fin M.labels.length) : DissimilarityMatrix :=
  ⟨List.ofFn (fun i => M.labels.get (σ i)),
   List.ofFn (fun i => List.ofFn (fun j => valAt M.grid (σ i).val (σ j).val))⟩

/-- Labels that survive a serialize/parse round trip: non-empty, unchanged
by whitespace stripping, and free of tab and newline characters. -/
def goodLabel (l : String) : Bool :=
  !l.data.isEmpty && decide (stripChars l.data = l.data)
    && decide ('\t' ∉ l.data) && decide ('\n' ∉ l.data)

/-- A label sequence that survives a round trip: every label good, and the
first label not beginning with the comment character. -/
def goodLabels (ls : List String) : Bool :=
  ls.all goodLabel && decide ((ls.headD "").data.headD ' ' ≠ '#')

/-- Every grid entry can be written exactly in decimal. -/
def decimalGrid (grid : List (List Val)) : Bool :=
  grid.all (fun r => r.all isDecimal)

/-- A small concrete valid matrix used to instantiate general theorems. -/
def permFixture : DissimilarityMatrix :=
  ⟨["a", "b"], [[valZero, valInt 1], [valInt 2, valZero]]⟩

/-! ## Helper lemmas about line splitting and skipping -/

theorem splitOnChar_ne_nil (sep : Char) (l : List Char) : splitOnChar sep l ≠ [] := by
  induction l with
  | nil => simp [splitOnChar]
  | cons c cs ih =>
    by_cases h : c = sep
    · simp [splitOnChar, h]
    · simp only [splitOnChar, if_neg h]
      cases hs : splitOnChar sep cs with
      | nil => exact absurd hs ih
      | cons t ts => simp

theorem splitOnChar_append (sep : Char) (xs ys : List Char) (h : sep ∉ xs) :
    splitOnChar sep (xs ++ sep :: ys) = xs :: splitOnChar sep ys := by
  induction xs with
  | nil => simp [splitOnChar]
  | cons c cs ih =>
    have hc : ¬(c = sep) := fun hh => h (hh ▸ List.mem_cons_self c cs)
    have hcs : sep ∉ cs := fun hh => h (List.mem_cons_of_mem c hh)
    simp only [List.cons_append, splitOnChar, if_neg hc, List.append_eq, ih hcs]

theorem splitOnChar_no_sep (sep : Char) (xs : List Char) (h : sep ∉ xs) :
    splitOnChar sep xs = [xs] := by
  induction xs with
  | nil => simp [splitOnChar]
  | cons c cs ih =>
    have hc : ¬(c = sep) := fun hh => h (hh ▸ List.mem_cons_self c cs)
    have hcs : sep ∉ cs := fun hh => h (List.mem_cons_of_mem c hh)
    simp only [splitOnChar, if_neg hc, ih hcs]

theorem splitLines_append_newline (s : List Char) :
    splitLines (s ++ ['\n']) = splitLines s ++ [[]] := by
  unfold splitLines
  induction s with
  | nil => simp [splitOnChar]
  | cons c cs ih =>
    by_cases h : c = '\n'
    · simp only [List.cons_append, splitOnChar, if_pos h, List.append_eq, ih,
        List.cons_append]
    · simp only [List.cons_append, splitOnChar, if_neg h, List.append_eq, ih]
      cases hs : splitOnChar '\n' cs with
      | nil => exact absurd hs (splitOnChar_ne_nil _ _)
      | cons t ts => simp [hs]

theorem seekHeader_append (L M : List Line) :
    seekHeader (L ++ M) =
      match seekHeader L with
      | some (h, rest) => some (h, rest ++ M)
      | none => seekHeader M := by
  induction L with
  | nil => simp [seekHeader]
  | cons l ls ih =>
    by_cases h : isBlank l || isComment l
    · simp only [List.cons_append, seekHeader, h, if_pos, List.append_eq, ih]
    · simp only [List.cons_append, seekHeader, h, if_neg, Bool.false_eq_true,
        not_false_iff, List.append_eq]

theorem seekHeader_skip (A L : List Line)
    (h : ∀ l ∈ A, isBlank l = true ∨ isComment l = true) :
    seekHeader (A ++ L) = seekHeader L := by
  induction A with
  | nil => rfl
  | cons a as ih =>
    have ha : (isBlank a || isComment a) = true := by
      rcases h a (List.mem_cons_self a as) with hh | hh <;> simp [hh]
    simp only [List.cons_append, seekHeader, ha, if_pos]
    exact ih (fun l hl => h l (List.mem_cons_of_mem a hl))

theorem parseRowsGo_insert_blank (n : Nat) (es : List String) (A B : List Line)
    (b : Line) (hb : isBlank b = true) :
    parseRowsGo n es (A ++ b :: B) = parseRowsGo n es (A ++ B) := by
  induction A generalizing es with
  | nil =>
    cases es with
    | nil => simp [parseRowsGo, hb]
    | cons e es => simp [parseRowsGo, hb]
  | cons a as ih =>
    cases es with
    | nil =>
      by_cases ha : isBlank a = true
      · simp only [List.cons_append, parseRowsGo, ha, if_pos, List.append_eq, ih]
      · simp only [List.cons_append, parseRowsGo, ha, if_neg, Bool.false_eq_true,
          not_false_iff]
    | cons e es =>
      by_cases ha : isBlank a = true
      · simp only [List.cons_append, parseRowsGo, ha, if_pos, List.append_eq, ih]
      · simp only [List.cons_append, parseRowsGo, ha, if_neg, Bool.false_eq_true,
          not_false_iff, List.append_eq]
        cases parseRow n e a with
        | error r => rfl
        | ok row => rw [ih]

theorem parseLines_append_blank (L : List Line) (b : Line) (hb : isBlank b = true) :
    parseLines (L ++ [b]) = parseLines L := by
  unfold parseLines
  rw [seekHeader_append]
  cases hs : seekHeader L with
  | none => simp [seekHeader, hb]
  | some p =>
    obtain ⟨h, rest⟩ := p
    have := parseRowsGo_insert_blank (headerLabels h).length (headerLabels h) rest [] b hb
    simp only [List.append_nil] at this
    simp [this]

theorem parse_append_newline (s : String) : parse (s ++ "\n") = parse s := by
  unfold parse
  have hd : (s ++ "\n").data = s.data ++ ['\n'] := by
    simp [String.data_append]
  rw [hd, splitLines_append_newline]
  exact parseLines_append_blank _ [] rfl

theorem headerLabels_leading_tab (h : Line)
    (hne : stripChars ((splitTab h).headD []) ≠ []) :
    headerLabels ('\t' :: h) = headerLabels h := by
  have h1 : splitTab ('\t' :: h) = [] :: splitTab h := by
    simp [splitTab, splitOnChar]
  unfold headerLabels
  rw [h1]
  cases hs : splitTab h with
  | nil => exact absurd hs (splitOnChar_ne_nil _ _)
  | cons t ts =>
    rw [hs] at hne
    simp only [List.headD_cons] at hne
    have ht : ¬(String.mk (stripChars t) = "") := by
      intro hh
      exact hne (congrArg String.data hh)
    simp only [List.map_cons, dropLeadingEmpty, if_pos rfl, if_neg ht]
    rfl

theorem parse_ok_labels_ne_nil (s : String) (ls : List String) (grid : List (List Val))
    (hp : parse s = .ok (ls, grid)) : ls ≠ [] := by
  unfold parse parseLines at hp
  cases hs : seekHeader (splitLines s.data) with
  | none => rw [hs] at hp; exact Except.noConfusion hp
  | some p =>
    obtain ⟨h, rest⟩ := p
    rw [hs] at hp
    simp only at hp
    by_cases he : (headerLabels h).isEmpty
    · rw [if_pos he] at hp; exact Except.noConfusion hp
    · rw [if_neg he] at hp
      cases hg : parseRowsGo (headerLabels h).length (headerLabels h) rest with
      | error r => rw [hg] at hp; exact Except.noConfusion hp
      | ok g =>
        rw [hg] at hp
        have hls : headerLabels h = ls := (Prod.mk.injEq _ _ _ _ ▸ Except.ok.injEq _ _ ▸ hp).1
        intro hnil
        rw [hnil] at hls
        exact he (hls ▸ rfl)

/-! ## Claim theorems: concrete fixture behavior -/

/-- C2: parsing the asymmetric 2x2 fixture succeeds as a dissimilarity
matrix with labels a, b and grid rows (0, 1) and (-2, 0) including the
negative off-diagonal entry, while the distance entry point fails with the
symmetry error, which is a kind distinct from both the format errors and
the general validation errors. -/
theorem C2_asym_dissim_ok_dist_symmetry_error :
    parsedLabels (parse DM_2x2_ASYM) = some ["a", "b"]
    ∧ okEquals (dm_to_DissimilarityMatrix DM_2x2_ASYM)
        (constructDissim ["a", "b"] [[valZero, valInt 1], [valInt (-2), valZero]]) = true
    ∧ dm_to_DistanceMatrix DM_2x2_ASYM = .error .symmetry
    ∧ (∀ r : FormatReason, DMError.symmetry ≠ .format r)
    ∧ (∀ v : ValidationReason, DMError.symmetry ≠ .validation v) :=
  ⟨by decide, by decide, by decide,
   fun _ h => DMError.noConfusion h, fun _ h => DMError.noConfusion h⟩

/-- C3: a row with fewer values than labels, a mismatched row label, an
extra non-blank trailing line, end of input before all rows, and completely
empty input each fail with a format error (never a validation error), for
both the dissimilarity and the distance parsing entry points. -/
theorem C3_invalid_inputs_format_errors :
    isFormatErr (dm_to_DissimilarityMatrix INVALID_1) = true
    ∧ isFormatErr (dm_to_DistanceMatrix INVALID_1) = true
    ∧ isFormatErr (dm_to_DissimilarityMatrix INVALID_2) = true
    ∧ isFormatErr (dm_to_DistanceMatrix INVALID_2) = true
    ∧ isFormatErr (dm_to_DissimilarityMatrix INVALID_3) = true
    ∧ isFormatErr (dm_to_DistanceMatrix INVALID_3) = true
    ∧ isFormatErr (dm_to_DissimilarityMatrix INVALID_4) = true
    ∧ isFormatErr (dm_to_DistanceMatrix INVALID_4) = true
    ∧ isFormatErr (dm_to_DissimilarityMatrix INVALID_5) = true
    ∧ isFormatErr (dm_to_DistanceMatrix INVALID_5) = true
    ∧ isFormatErr (dm_to_DissimilarityMatrix "") = true
    ∧ isFormatErr (dm_to_DistanceMatrix "") = true := by
  decide

/-- C7: parsing the 1x1 fixture succeeds for both entry points, yields the
label sequence [a], and holds the value zero at the identifier pair
(a, a). -/
theorem C7_parse_1x1 :
    okEquals (dm_to_DissimilarityMatrix DM_1x1) (constructDissim ["a"] [[valZero]]) = true
    ∧ okEquals (dm_to_DistanceMatrix DM_1x1) (constructDist ["a"] [[valZero]]) = true
    ∧ parsedLabels (parse DM_1x1) = some ["a"]
    ∧ (okValueById (dm_to_DissimilarityMatrix DM_1x1) "a" "a").map
        (fun v => valEq v valZero) = some true
    ∧ (okValueById (dm_to_DistanceMatrix DM_1x1) "a" "a").map
        (fun v => valEq v valZero) = some true := by
  decide

/-- C9: header tokens and data-row labels are stripped of surrounding
whitespace before comparison and storage: the whitespace-laden 3x3 fixture
(whose header holds the token " b " and whose first row is labelled
"a  ") parses to the stripped labels, and the parsed matrix equals the one
constructed directly from the stripped labels and the plain grid data. -/
theorem C9_token_stripping :
    String.mk (stripChars " b ".data) = "b"
    ∧ String.mk (stripChars "a  ".data) = "a"
    ∧ parsedLabels (parse DM_3x3_WHITESPACE) = some ["a", "b", "c"]
    ∧ okEquals (dm_to_DissimilarityMatrix DM_3x3_WHITESPACE)
        (constructDissim ["a", "b", "c"] dm3x3Data) = true := by
  decide

/-- C10: a final data row not terminated by a newline is still parsed as a
complete row: appending a trailing newline never changes the parse result,
and the 3x3 fixture (whose last line ends at end of input) parses to the
full 3x3 matrix. -/
theorem C10_no_trailing_newline :
    (∀ s : String, parse (s ++ "\n") = parse s)
    ∧ dm_to_DissimilarityMatrix (DM_3x3 ++ "\n") = dm_to_DissimilarityMatrix DM_3x3
    ∧ okEquals (dm_to_DissimilarityMatrix DM_3x3)
        (constructDissim ["a", "b", "c"] dm3x3Data) = true :=
  ⟨parse_append_newline, by decide, by decide⟩

/-- C4 counterexample: the claim admits comment lines between data rows,
but a comment line there is read as a data row and turns a successful
parse into a mismatched-id failure, so it does change the parsed result. -/
theorem C4_counterexample :
    isComment "# foo".data = true
    ∧ dm_to_DissimilarityMatrix "\ta\tb\na\t0\t1\n# foo\nb\t1\t0"
        ≠ dm_to_DissimilarityMatrix "\ta\tb\na\t0\t1\nb\t1\t0" := by
  decide

/-- C4 (amended): interleaving comment or whitespace-only lines before the
header, and whitespace-only lines between or after data rows, does not
change the parsed result; in particular the whitespace-and-comment-laden
3x3 fixture parses to the same matrix as the plain 3x3 fixture. -/
theorem C4_interleaving_amended :
    (∀ A B, (∀ l ∈ A, isBlank l = true ∨ isComment l = true) →
      parseLines (A ++ B) = parseLines B)
    ∧ (∀ (h : Line) A B b, isBlank h = false → isComment h = false → isBlank b = true →
      parseLines (h :: (A ++ b :: B)) = parseLines (h :: (A ++ B)))
    ∧ okEquals (dm_to_DissimilarityMatrix DM_3x3_WHITESPACE)
        (dm_to_DissimilarityMatrix DM_3x3) = true := by
  refine ⟨fun A B hA => ?_, fun h A B b hbh hch hbb => ?_, by decide⟩
  · unfold parseLines
    rw [seekHeader_skip A B hA]
  · unfold parseLines
    have hcond : (isBlank h || isComment h) = false := by simp [hbh, hch]
    simp only [seekHeader, hcond, Bool.false_eq_true, if_neg, not_false_iff]
    rw [parseRowsGo_insert_blank _ _ A B b hbb]

/-- C4 witness: the amended statement applied to concrete line lists — a
comment and a blank line dropped before a header, and a blank line dropped
between two data rows. -/
theorem C4_interleaving_amended_witness :
    parseLines (["# x".data, "  ".data] ++ ["\ta".data, "a\t0.0".data])
      = parseLines ["\ta".data, "a\t0.0".data]
    ∧ parseLines ("\ta\tb".data :: (["a\t0\t1".data] ++ " ".data :: ["b\t1\t0".data]))
      = parseLines ("\ta\tb".data :: (["a\t0\t1".data] ++ ["b\t1\t0".data])) :=
  ⟨C4_interleaving_amended.1 _ _ (by decide),
   C4_interleaving_amended.2.1 _ _ _ _ (by decide) (by decide) (by decide)⟩

/-- C8: the first non-blank, non-comment line is the header; a single
leading empty token from an optional leading tab is discarded, so a header
with a leading tab yields the same labels as one without; a successful
parse never yields zero labels (a header with zero tokens fails as empty
input); and the 3x3 fixture, whose header has no leading tab, parses to
the labels a, b, c. -/
theorem C8_header_rules :
    (∀ A (h : Line) rest, (∀ l ∈ A, isBlank l = true ∨ isComment l = true) →
      isBlank h = false → isComment h = false →
      seekHeader (A ++ h :: rest) = some (h, rest))
    ∧ (∀ h : Line, stripChars ((splitTab h).headD []) ≠ [] →
      headerLabels ('\t' :: h) = headerLabels h)
    ∧ (∀ s ls grid, parse s = .ok (ls, grid) → ls ≠ [])
    ∧ parsedLabels (parse DM_3x3) = some ["a", "b", "c"] := by
  refine ⟨fun A h rest hA hbh hch => ?_, headerLabels_leading_tab,
    parse_ok_labels_ne_nil, by decide⟩
  rw [seekHeader_skip A _ hA]
  have hcond : (isBlank h || isComment h) = false := by simp [hbh, hch]
  simp [seekHeader, hcond]

/-! ## Equality and validation lemmas -/

theorem valEq_refl (v : Val) : valEq v v = true := by
  simp [valEq]

theorem valEq_symm (a b : Val) (h : valEq a b = true) : valEq b a = true := by
  simp only [valEq, decide_eq_true_eq] at h ⊢
  exact h.symm

theorem eqVals_iff (xs : List Val) : ∀ ys, eqVals xs ys = true ↔
    xs.length = ys.length ∧ ∀ (i : Nat) (hx : i < xs.length) (hy : i < ys.length),
      valEq (xs.get ⟨i, hx⟩) (ys.get ⟨i, hy⟩) = true := by
  induction xs with
  | nil =>
    intro ys
    cases ys with
    | nil =>
      exact ⟨fun _ => ⟨rfl, fun i hx _ => absurd hx (Nat.not_lt_zero i)⟩, fun _ => rfl⟩
    | cons y ys =>
      simp only [eqVals, List.length_nil, List.length_cons]
      exact ⟨fun h => Bool.noConfusion h, fun h => absurd h.1 (by omega)⟩
  | cons x xs ih =>
    intro ys
    cases ys with
    | nil =>
      simp only [eqVals, List.length_nil, List.length_cons]
      exact ⟨fun h => Bool.noConfusion h, fun h => absurd h.1 (by omega)⟩
    | cons y ys =>
      simp only [eqVals, Bool.and_eq_true, List.length_cons, ih ys]
      constructor
      · rintro ⟨hxy, hlen, hrest⟩
        refine ⟨by omega, fun i hx hy => ?_⟩
        cases i with
        | zero => exact hxy
        | succ k => exact hrest k (by omega) (by omega)
      · rintro ⟨hlen, hall⟩
        exact ⟨hall 0 (by omega) (by omega), by omega,
          fun k hk hk' => hall (k + 1) (by omega) (by omega)⟩

theorem eqGrid_iff (g : List (List Val)) : ∀ h, eqGrid g h = true ↔ GridEquiv g h := by
  induction g with
  | nil =>
    intro h
    cases h with
    | nil =>
      exact ⟨fun _ => ⟨rfl, fun i hg _ => absurd hg (Nat.not_lt_zero i)⟩, fun _ => rfl⟩
    | cons s ss =>
      simp only [eqGrid, GridEquiv, List.length_nil, List.length_cons]
      exact ⟨fun hh => Bool.noConfusion hh, fun hh => absurd hh.1 (by omega)⟩
  | cons r rs ih =>
    intro h
    cases h with
    | nil =>
      simp only [eqGrid, GridEquiv, List.length_nil, List.length_cons]
      exact ⟨fun hh => Bool.noConfusion hh, fun hh => absurd hh.1 (by omega)⟩
    | cons s ss =>
      simp only [eqGrid, Bool.and_eq_true, eqVals_iff, ih ss, GridEquiv, List.length_cons]
      constructor
      · rintro ⟨⟨hrl, hre⟩, hlen, hrest⟩
        refine ⟨by omega, fun i hg hh => ?_⟩
        cases i with
        | zero => exact ⟨hrl, hre⟩
        | succ k => exact hrest k (by omega) (by omega)
      · rintro ⟨hlen, hall⟩
        refine ⟨hall 0 (by omega) (by omega), by omega,
          fun k hk hk' => hall (k + 1) (by omega) (by omega)⟩

theorem eqLabels_iff (xs : List String) : ∀ ys, eqLabels xs ys = true ↔ xs = ys := by
  induction xs with
  | nil =>
    intro ys
    cases ys with
    | nil => simp [eqLabels]
    | cons y ys => simp [eqLabels]
  | cons x xs ih =>
    intro ys
    cases ys with
    | nil => simp [eqLabels]
    | cons y ys =>
      simp [eqLabels, Bool.and_eq_true, decide_eq_true_eq, ih ys]

theorem equals_iff (a b : DissimilarityMatrix) :
    equals a b = true ↔ a.labels = b.labels ∧ GridEquiv a.grid b.grid := by
  simp [equals, Bool.and_eq_true, eqLabels_iff, eqGrid_iff]

theorem gridEquiv_refl (g : List (List Val)) : GridEquiv g g :=
  ⟨rfl, fun _ _ _ => ⟨rfl, fun _ _ _ => valEq_refl _⟩⟩

theorem gridEquiv_symm (g h : List (List Val)) (he : GridEquiv g h) : GridEquiv h g :=
  ⟨he.1.symm, fun i hh hg =>
    ⟨(he.2 i hg hh).1.symm, fun j h1 h2 => valEq_symm _ _ ((he.2 i hg hh).2 j h2 h1)⟩⟩

theorem squareB_iff (n : Nat) (grid : List (List Val)) :
    squareB n grid = true ↔ SquareGrid n grid := by
  simp [squareB, SquareGrid, List.all_eq_true]

theorem finiteB_iff (grid : List (List Val)) : finiteB grid = true ↔ FiniteGrid grid := by
  simp [finiteB, FiniteGrid, List.all_eq_true]

theorem hollowB_iff (grid : List (List Val)) : hollowB grid = true ↔ Hollow grid := by
  simp [hollowB, Hollow, List.all_eq_true, List.mem_range]

theorem distinctB_iff (ls : List String) : distinctB ls = true ↔ ls.Nodup := by
  induction ls with
  | nil => simp [distinctB]
  | cons l ls ih => simp [distinctB, ih, List.nodup_cons]

theorem symmB_iff (grid : List (List Val)) : symmB grid = true ↔ SymmGrid grid := by
  unfold symmB SymmGrid
  simp only [List.all_eq_true, List.mem_range]

theorem isOk_iff {ε α : Type} (e : Except ε α) : isOk e = true ↔ ∃ a, e = .ok a := by
  cases e with
  | error x => simp [isOk]
  | ok a => simp [isOk]

theorem constructDissim_isOk_iff (labels : List String) (grid : List (List Val)) :
    isOk (constructDissim labels grid) = true ↔ DissimInv labels grid := by
  unfold constructDissim
  split_ifs with h0 h1 h2 h3 h4
  · simp only [isOk, Bool.false_eq_true, false_iff]
    exact fun h => by have := h.1; omega
  · simp only [isOk, Bool.false_eq_true, false_iff, Bool.not_eq_true'] at h1 ⊢
    exact fun h => by
      have := (squareB_iff labels.length grid).mpr h.2.1
      rw [h1] at this
      exact Bool.noConfusion this
  · simp only [isOk, Bool.false_eq_true, false_iff, Bool.not_eq_true'] at h2 ⊢
    exact fun h => by
      have := (finiteB_iff grid).mpr h.2.2.1
      rw [h2] at this
      exact Bool.noConfusion this
  · simp only [isOk, Bool.false_eq_true, false_iff, Bool.not_eq_true'] at h3 ⊢
    exact fun h => by
      have := (hollowB_iff grid).mpr h.2.2.2.1
      rw [h3] at this
      exact Bool.noConfusion this
  · simp only [isOk, Bool.false_eq_true, false_iff, Bool.not_eq_true'] at h4 ⊢
    exact fun h => by
      have := (distinctB_iff labels).mpr h.2.2.2.2
      rw [h4] at this
      exact Bool.noConfusion this
  · simp only [isOk, true_iff]
    rw [Bool.not_eq_true', Bool.not_eq_false] at h1 h2 h3 h4
    exact ⟨by omega, (squareB_iff _ _).mp h1, (finiteB_iff _).mp h2,
      (hollowB_iff _).mp h3, (distinctB_iff _).mp h4⟩

theorem constructDissim_ok_shape (labels : List String) (grid : List (List Val))
    (M : DissimilarityMatrix) (h : constructDissim labels grid = .ok M) :
    M = ⟨labels, grid⟩ := by
  unfold constructDissim at h
  split_ifs at h
  all_goals first
    | exact Except.noConfusion h
    | (injection h with h'; exact h'.symm)

theorem constructDissim_err (labels : List String) (grid : List (List Val))
    (h : ¬ DissimInv labels grid) :
    ∃ r, constructDissim labels grid = .error (.validation r) := by
  by_cases hok : isOk (constructDissim labels grid) = true
  · exact absurd ((constructDissim_isOk_iff labels grid).mp hok) h
  · unfold constructDissim at hok ⊢
    split_ifs at hok ⊢
    · exact ⟨.empty, rfl⟩
    · exact ⟨.nonSquare, rfl⟩
    · exact ⟨.nonFinite, rfl⟩
    · exact ⟨.nonZeroDiagonal, rfl⟩
    · exact ⟨.duplicateLabel, rfl⟩
    · exact absurd rfl hok

theorem constructDist_isOk_iff (labels : List String) (grid : List (List Val)) :
    isOk (constructDist labels grid) = true ↔ DissimInv labels grid ∧ SymmGrid grid := by
  unfold constructDist
  cases hc : constructDissim labels grid with
  | error e =>
    simp only [isOk, Bool.false_eq_true, false_iff]
    rintro ⟨hinv, _⟩
    have := (constructDissim_isOk_iff labels grid).mpr hinv
    rw [hc] at this
    exact Bool.noConfusion this
  | ok M =>
    have hinv := (constructDissim_isOk_iff labels grid).mp (by rw [hc]; rfl)
    split_ifs with hs
    · simp only [isOk, Bool.false_eq_true, false_iff, Bool.not_eq_true'] at hs ⊢
      rintro ⟨_, hsym⟩
      have := (symmB_iff grid).mpr hsym
      rw [hs] at this
      exact Bool.noConfusion this
    · rw [Bool.not_eq_true', Bool.not_eq_false] at hs
      simp only [isOk, true_iff]
      exact ⟨hinv, (symmB_iff grid).mp hs⟩

theorem valAt_eq_get (grid : List (List Val)) (i j : Nat) (hi : i < grid.length)
    (hj : j < (grid.get ⟨i, hi⟩).length) :
    valAt grid i j = (grid.get ⟨i, hi⟩).get ⟨j, hj⟩ := by
  unfold valAt
  simp only [List.get_eq_getElem] at hj ⊢
  rw [List.getD_eq_getElem grid [] hi, List.getD_eq_getElem _ valZero hj]

/-! ## Digit-string and whitespace lemmas for the round trip -/

theorem length_dropWhile_le {α : Type} (p : α → Bool) :
    ∀ l : List α, (l.dropWhile p).length ≤ l.length := by
  intro l
  induction l with
  | nil => simp
  | cons a l ih =>
    rw [List.dropWhile_cons]
    by_cases h : p a = true
    · simp only [h, if_pos]
      exact Nat.le_trans ih (Nat.le_succ _)
    · simp [h]

theorem dropWhile_all_false {α : Type} (p : α → Bool) (l : List α)
    (h : ∀ c ∈ l, p c = false) : l.dropWhile p = l := by
  cases l with
  | nil => rfl
  | cons a l =>
    rw [List.dropWhile_cons, if_neg]
    simp [h a (List.mem_cons_self a l)]

theorem stripChars_all_no_ws (l : List Char) (h : ∀ c ∈ l, isWs c = false) :
    stripChars l = l := by
  unfold stripChars
  rw [dropWhile_all_false _ _ h,
    dropWhile_all_false _ _ (fun c hc => h c (List.mem_reverse.mp hc))]
  exact List.reverse_reverse l

theorem strip_self_head (c : Char) (cs : List Char)
    (h : stripChars (c :: cs) = c :: cs) : isWs c = false := by
  by_contra hc
  rw [Bool.not_eq_false] at hc
  have h1 : ((c :: cs).dropWhile isWs).length ≤ cs.length := by
    rw [List.dropWhile_cons, if_pos hc]
    exact length_dropWhile_le _ _
  have h2 : (stripChars (c :: cs)).length ≤ cs.length := by
    unfold stripChars
    calc ((((c :: cs).dropWhile isWs).reverse.dropWhile isWs).reverse).length
        = (((c :: cs).dropWhile isWs).reverse.dropWhile isWs).length := by
          rw [List.length_reverse]
      _ ≤ ((c :: cs).dropWhile isWs).reverse.length := length_dropWhile_le _ _
      _ = ((c :: cs).dropWhile isWs).length := by rw [List.length_reverse]
      _ ≤ cs.length := h1
  rw [h] at h2
  simp at h2

theorem digitChars_props (c : Char) (h : c ∈ digitChars) :
    Char.isDigit c = true ∧ c ≠ '.' ∧ c ≠ '-' ∧ c ≠ '+' ∧ isWs c = false := by
  fin_cases h <;> decide

theorem showChars_props (c : Char) (h : c ∈ '-' :: '.' :: digitChars) :
    isWs c = false ∧ c ≠ '\t' ∧ c ≠ '\n' := by
  fin_cases h <;> decide

theorem digitsVal_append_one (xs : List Char) (c : Char) :
    digitsVal (xs ++ [c]) = digitsVal xs * 10 + digitVal c := by
  simp [digitsVal, List.foldl_append]

theorem natDigitsAux_spec :
    ∀ fuel n, n < fuel →
      natDigitsAux fuel n ≠ [] ∧ (∀ c ∈ natDigitsAux fuel n, c ∈ digitChars) ∧
        digitsVal (natDigitsAux fuel n) = n := by
  intro fuel
  induction fuel with
  | zero => intro n hn; omega
  | succ fuel ih =>
    intro n hn
    by_cases h10 : n < 10
    · unfold natDigitsAux
      rw [if_pos h10]
      refine ⟨by simp, ?_, ?_⟩
      · intro c hc
        rw [List.mem_singleton] at hc
        subst hc
        interval_cases n <;> decide
      · interval_cases n <;> decide
    · unfold natDigitsAux
      rw [if_neg h10]
      have hlt : n / 10 < fuel := by
        have := Nat.div_lt_self (by omega : 0 < n) (by omega : 1 < 10)
        omega
      obtain ⟨hne, hmem, hval⟩ := ih (n / 10) hlt
      refine ⟨by simp, ?_, ?_⟩
      · intro c hc
        rw [List.mem_append] at hc
        rcases hc with hc | hc
        · exact hmem c hc
        · rw [List.mem_singleton] at hc
          subst hc
          have hr : n % 10 < 10 := Nat.mod_lt n (by omega)
          set r := n % 10 with hrdef
          interval_cases r <;> decide
      · rw [digitsVal_append_one, hval]
        have hr : n % 10 < 10 := Nat.mod_lt n (by omega)
        have hdv : digitVal (Char.ofNat (n % 10 + 48)) = n % 10 := by
          set r := n % 10 with hrdef
          interval_cases r <;> decide
        rw [hdv]
        omega

theorem natStr_spec (n : Nat) :
    natStr n ≠ [] ∧ (∀ c ∈ natStr n, c ∈ digitChars) ∧ digitsVal (natStr n) = n :=
  natDigitsAux_spec (n + 1) n (Nat.lt_succ_self n)

theorem natDigitsAux_length :
    ∀ fuel n k, n < fuel → n < 10 ^ k → 1 ≤ k → (natDigitsAux fuel n).length ≤ k := by
  intro fuel
  induction fuel with
  | zero => intro n k hn; omega
  | succ fuel ih =>
    intro n k hn hk h1
    by_cases h10 : n < 10
    · unfold natDigitsAux
      rw [if_pos h10]
      simpa using h1
    · unfold natDigitsAux
      rw [if_neg h10]
      have hk2 : 2 ≤ k := by
        by_contra hh
        have : k = 1 := by omega
        subst this
        simp at hk
        omega
      have hlt : n / 10 < fuel := by
        have := Nat.div_lt_self (by omega : 0 < n) (by omega : 1 < 10)
        omega
      have hdiv : n / 10 < 10 ^ (k - 1) := by
        rw [Nat.div_lt_iff_lt_mul (by omega : 0 < 10)]
        have : 10 ^ (k - 1) * 10 = 10 ^ k := by
          rw [← pow_succ]
          congr 1
          omega
        omega
      have := ih (n / 10) (k - 1) hlt hdiv (by omega)
      simp only [List.length_append, List.length_singleton]
      omega

theorem digitsVal_replicate_zero (z : Nat) (cs : List Char) :
    digitsVal (List.replicate z '0' ++ cs) = digitsVal cs := by
  induction z with
  | zero => rfl
  | succ z ih =>
    rw [List.replicate_succ, List.cons_append]
    show List.foldl (fun a c => a * 10 + digitVal c)
      ((fun a c => a * 10 + digitVal c) 0 '0') (List.replicate z '0' ++ cs) = digitsVal cs
    have h0 : (fun a c => a * 10 + digitVal c) 0 '0' = 0 := by decide
    rw [h0]
    exact ih

/-! ## Value round-trip lemmas -/

theorem showValue_chars (v : Val) : ∀ c ∈ showValue v, c ∈ '-' :: '.' :: digitChars := by
  intro c hc
  unfold showValue at hc
  simp only [List.mem_append] at hc
  rcases hc with (hc | hc) | hc
  · by_cases hneg : v.num < 0
    · rw [if_pos hneg] at hc
      rw [List.mem_singleton] at hc
      subst hc
      simp
    · rw [if_neg hneg] at hc
      exact absurd hc (List.not_mem_nil c)
  · have := (natStr_spec _).2.1 c hc
    simp [this]
  · by_cases hk : decExp v = 0
    · rw [if_pos hk] at hc
      exact absurd hc (List.not_mem_nil c)
    · rw [if_neg hk] at hc
      rw [List.mem_cons] at hc
      rcases hc with hc | hc
      · subst hc
        simp
      · unfold padZeros at hc
        rw [List.mem_append] at hc
        rcases hc with hc | hc
        · have := List.eq_of_mem_replicate hc
          subst this
          simp [digitChars]
        · have := (natStr_spec _).2.1 c hc
          simp [this]

theorem parseUnsigned_digits (cs : List Char) (hne : cs ≠ [])
    (hd : ∀ c ∈ cs, c ∈ digitChars) :
    parseUnsigned cs = some ⟨(digitsVal cs : Int), 1⟩ := by
  have hdot : '.' ∉ cs := fun hmem => absurd rfl (digitChars_props _ (hd _ hmem)).2.1
  unfold parseUnsigned
  rw [splitOnChar_no_sep '.' cs hdot]
  unfold unsignedOfParts
  rw [if_pos (by simp)]
  rw [if_pos]
  · simp
  · simp only [List.headD_cons, Bool.and_eq_true, decide_eq_true_eq]
    refine ⟨by simpa using hne, ?_⟩
    simp only [allDigits, List.all_eq_true]
    exact fun c hcm => (digitChars_props c (hd c hcm)).1

theorem parseUnsigned_digits_dot (as bs : List Char) (hane : as ≠ [])
    (ha : ∀ c ∈ as, c ∈ digitChars) (hb : ∀ c ∈ bs, c ∈ digitChars) :
    parseUnsigned (as ++ '.' :: bs) =
      some ⟨((digitsVal as * 10 ^ bs.length + digitsVal bs : Nat) : Int), 10 ^ bs.length⟩ := by
  have hdota : '.' ∉ as := fun hmem => absurd rfl (digitChars_props _ (ha _ hmem)).2.1
  have hdotb : '.' ∉ bs := fun hmem => absurd rfl (digitChars_props _ (hb _ hmem)).2.1
  unfold parseUnsigned
  rw [splitOnChar_append '.' as bs hdota, splitOnChar_no_sep '.' bs hdotb]
  unfold unsignedOfParts
  rw [if_neg (by simp), if_pos (by simp)]
  rw [if_pos]
  · simp
  · simp only [List.headD_cons, List.getD_cons_succ, List.getD_cons_zero,
      Bool.and_eq_true, Bool.or_eq_true, decide_eq_true_eq]
    refine ⟨⟨Or.inl (by simpa using hane), ?_⟩, ?_⟩
    · simp only [allDigits, List.all_eq_true]
      exact fun c hcm => (digitChars_props c (ha c hcm)).1
    · simp only [allDigits, List.all_eq_true]
      exact fun c hcm => (digitChars_props c (hb c hcm)).1

theorem parseValue_pos_path (t : List Char) (hstrip : stripChars t = t)
    (h1 : t.headD ' ' ≠ '-') (h2 : t.headD ' ' ≠ '+') :
    parseValue t = parseUnsigned t := by
  unfold parseValue
  rw [hstrip, if_neg h1, if_neg h2]

theorem parseValue_neg_path (t : List Char) (hstrip : stripChars ('-' :: t) = '-' :: t) :
    parseValue ('-' :: t) = (parseUnsigned t).map (fun v => ⟨-v.num, v.den⟩) := by
  unfold parseValue
  rw [hstrip]
  simp

theorem parseUnsigned_show_core (a k : Nat) :
    parseUnsigned (natStr (a / 10 ^ k) ++
        (if k = 0 then [] else '.' :: padZeros k (natStr (a % 10 ^ k)))) =
      some ⟨(a : Int), 10 ^ k⟩ := by
  by_cases hk : k = 0
  · subst hk
    rw [if_pos rfl, List.append_nil, pow_zero, Nat.div_one]
    rw [parseUnsigned_digits _ (natStr_spec _).1 (natStr_spec _).2.1]
    rw [(natStr_spec a).2.2]
  · rw [if_neg hk]
    have hpow : 0 < 10 ^ k := pow_pos (by omega) k
    have hf : a % 10 ^ k < 10 ^ k := Nat.mod_lt _ hpow
    have hlen : (natStr (a % 10 ^ k)).length ≤ k :=
      natDigitsAux_length _ _ _ (Nat.lt_succ_self _) hf (by omega)
    have hpadmem : ∀ c ∈ padZeros k (natStr (a % 10 ^ k)), c ∈ digitChars := by
      intro c hc
      unfold padZeros at hc
      rw [List.mem_append] at hc
      rcases hc with hc | hc
      · rw [List.eq_of_mem_replicate hc]
        simp [digitChars]
      · exact (natStr_spec _).2.1 c hc
    rw [parseUnsigned_digits_dot _ _ (natStr_spec _).1 (natStr_spec _).2.1 hpadmem]
    have hpadlen : (padZeros k (natStr (a % 10 ^ k))).length = k := by
      unfold padZeros
      rw [List.length_append, List.length_replicate]
      omega
    have hdvpad : digitsVal (padZeros k (natStr (a % 10 ^ k))) = a % 10 ^ k := by
      unfold padZeros
      rw [digitsVal_replicate_zero, (natStr_spec _).2.2]
    rw [hpadlen, (natStr_spec _).2.2, hdvpad]
    have hdm : a / 10 ^ k * 10 ^ k + a % 10 ^ k = a := by
      rw [Nat.mul_comm]
      exact Nat.div_add_mod a (10 ^ k)
    rw [hdm]

theorem parseValue_showValue (v : Val) (h : isDecimal v = true) :
    ∃ w, parseValue (showValue v) = some w ∧ valEq w v = true ∧ w.den ≠ 0 := by
  have hh : v.den ≠ 0 ∧ (v.num.natAbs * 10 ^ decExp v) % v.den = 0 := by
    have h2 := h
    unfold isDecimal at h2
    simp only [Bool.and_eq_true, decide_eq_true_eq] at h2
    exact h2
  obtain ⟨hden, hmod⟩ := hh
  have hmul : v.num.natAbs * 10 ^ decExp v / v.den * v.den
      = v.num.natAbs * 10 ^ decExp v :=
    Nat.div_mul_cancel (Nat.dvd_of_mod_eq_zero hmod)
  have hstripSV : stripChars (showValue v) = showValue v :=
    stripChars_all_no_ws _ (fun c hc => (showChars_props c (showValue_chars v c hc)).1)
  set X := v.num.natAbs * 10 ^ decExp v / v.den with hXdef
  set u := natStr (X / 10 ^ decExp v) ++
    (if decExp v = 0 then []
     else '.' :: padZeros (decExp v) (natStr (X % 10 ^ decExp v))) with hudef
  have hu : showValue v = (if v.num < 0 then ['-'] else []) ++ u := by
    unfold showValue
    rw [List.append_assoc, ← hXdef, ← hudef]
  have huval : parseUnsigned u = some ⟨(X : Int), 10 ^ decExp v⟩ := by
    rw [hudef]
    exact parseUnsigned_show_core X (decExp v)
  have huhead : u.headD ' ' ∈ digitChars := by
    obtain ⟨c, cs, hcons⟩ := List.exists_cons_of_ne_nil (natStr_spec (X / 10 ^ decExp v)).1
    rw [hudef, hcons, List.cons_append, List.headD_cons]
    exact (natStr_spec (X / 10 ^ decExp v)).2.1 c (hcons ▸ List.mem_cons_self c cs)
  have hpowne : (10 : Nat) ^ decExp v ≠ 0 := (pow_pos (by omega) (decExp v)).ne'
  have hcast : (X : Int) * (v.den : Int)
      = (v.num.natAbs : Int) * (((10 : Nat) ^ decExp v : Nat) : Int) := by
    exact_mod_cast hmul
  by_cases hneg : v.num < 0
  · rw [if_pos hneg] at hu
    have hu2 : showValue v = '-' :: u := by
      rw [hu]
      rfl
    have hstrip2 : stripChars ('-' :: u) = '-' :: u := by
      rw [← hu2]
      exact hstripSV
    refine ⟨⟨-(X : Int), 10 ^ decExp v⟩, ?_, ?_, hpowne⟩
    · rw [hu2, parseValue_neg_path u hstrip2, huval]
      rfl
    · simp only [valEq, decide_eq_true_eq]
      have habs : (v.num.natAbs : Int) = -v.num := by omega
      rw [habs] at hcast
      rw [neg_mul, hcast, neg_mul, neg_neg]
  · rw [if_neg hneg] at hu
    have hu2 : showValue v = u := by
      rw [hu]
      rfl
    have hstrip2 : stripChars u = u := by
      rw [← hu2]
      exact hstripSV
    refine ⟨⟨(X : Int), 10 ^ decExp v⟩, ?_, ?_, hpowne⟩
    · rw [hu2, parseValue_pos_path u hstrip2
        (fun hh => absurd rfl ((digitChars_props _ (hh ▸ huhead)).2.2.1))
        (fun hh => absurd rfl ((digitChars_props _ (hh ▸ huhead)).2.2.2.1)), huval]
    · simp only [valEq, decide_eq_true_eq]
      have habs : (v.num.natAbs : Int) = v.num := by omega
      rw [habs] at hcast
      exact hcast

/-! ## Claim theorems: construction and equality -/

/-- C6: direct construction succeeds exactly when the invariants hold
(square grid matching the label count, finite entries, zero diagonal,
pairwise-distinct labels, at least one label — plus symmetry for the
distance variant); on any violation the caller receives a classified
validation error and no instance; in particular a non-zero diagonal entry
is a validation error even in an otherwise well-formed symmetric grid. -/
theorem C6_construct_validates :
    (∀ labels grid, (∃ M, constructDissim labels grid = .ok M) ↔ DissimInv labels grid)
    ∧ (∀ labels grid, ¬ DissimInv labels grid →
        ∃ r, constructDissim labels grid = .error (.validation r))
    ∧ (∀ labels grid, (∃ M, constructDist labels grid = .ok M) ↔
        DissimInv labels grid ∧ SymmGrid grid)
    ∧ constructDissim ["a", "b"] [[valZero, valInt 2], [valInt 2, valInt 3]]
        = .error (.validation .nonZeroDiagonal) :=
  ⟨fun labels grid => (isOk_iff _).symm.trans (constructDissim_isOk_iff labels grid),
   constructDissim_err,
   fun labels grid => (isOk_iff _).symm.trans (constructDist_isOk_iff labels grid),
   by decide⟩

/-- C6 witness: the classified-failure clause applied at the empty input,
whose invariants fail. -/
theorem C6_construct_validates_witness :
    ∃ r, constructDissim [] [] = .error (.validation r) :=
  C6_construct_validates.2.1 [] [] (fun hinv => absurd hinv.1 (by decide))

/-- C5: equality of matrices holds exactly when the label sequences are
equal element-for-element in order and the grids are equal
element-for-element with exact numeric equality; equality is reflexive and
symmetric; and permuting the labels of a valid matrix while
correspondingly permuting its grid yields a matrix equal to the original
exactly when the permutation is the identity. -/
theorem C5_equals_spec :
    (∀ a b : DissimilarityMatrix, equals a b = true ↔
      a.labels = b.labels ∧ GridEquiv a.grid b.grid)
    ∧ (∀ a, equals a a = true)
    ∧ (∀ a b, equals a b = true → equals b a = true)
    ∧ (∀ (M : DissimilarityMatrix) (σ : Fin M.labels.length → Fin M.labels.length),
        validB M = true → Function.Bijective σ →
        (equals (matPerm M σ) M = true ↔ ∀ i, σ i = i)) := by
  refine ⟨equals_iff, fun a => (equals_iff a a).mpr ⟨rfl, gridEquiv_refl _⟩,
    fun a b h => ?_, fun M σ hv hbij => ?_⟩
  · obtain ⟨hl, hg⟩ := (equals_iff a b).mp h
    exact (equals_iff b a).mpr ⟨hl.symm, gridEquiv_symm _ _ hg⟩
  · have hinv : DissimInv M.labels M.grid := (constructDissim_isOk_iff _ _).mp hv
    obtain ⟨hn, ⟨hglen, hrows⟩, _, _, hnd⟩ := hinv
    constructor
    · intro he i
      have hl : (matPerm M σ).labels = M.labels := ((equals_iff _ _).mp he).1
      have h2 : List.ofFn (fun i => M.labels.get (σ i)) = List.ofFn M.labels.get := by
        rw [List.ofFn_get]
        exact hl
      exact (List.Nodup.get_inj_iff hnd).mp (congrFun (List.ofFn_inj.mp h2) i)
    · intro hid
      apply (equals_iff _ _).mpr
      constructor
      · show List.ofFn (fun i => M.labels.get (σ i)) = M.labels
        have hfun : (fun i => M.labels.get (σ i)) = M.labels.get :=
          funext (fun i => by rw [hid i])
        rw [hfun, List.ofFn_get]
      · show GridEquiv
          (List.ofFn (fun i => List.ofFn (fun j => valAt M.grid (σ i).val (σ j).val)))
          M.grid
        refine ⟨by simp [hglen], fun i h1 h2 => ?_⟩
        have hiN : i < M.labels.length := by simpa using h1
        have hig : i < M.grid.length := by omega
        have hrowmem := hrows (M.grid.get ⟨i, hig⟩) (List.get_mem _ _ _)
        have hout : (List.ofFn
            (fun i => List.ofFn (fun j => valAt M.grid (σ i).val (σ j).val))).get ⟨i, h1⟩
            = List.ofFn (fun j => valAt M.grid (σ ⟨i, hiN⟩).val (σ j).val) := by
          simp [List.get_ofFn]
        constructor
        · rw [hout]
          simp only [List.length_ofFn]
          omega
        · intro j hgj hhj
          have hjG : j < (M.grid.get ⟨i, hig⟩).length := by
            have := hhj
            simp only [List.get_eq_getElem] at this ⊢
            exact this
          simp only [List.get_eq_getElem, List.getElem_ofFn, hid]
          rw [show valAt M.grid i j = M.grid[i][j] from by
            have := valAt_eq_get M.grid i j hig hjG
            simpa [List.get_eq_getElem] using this]
          exact valEq_refl _

/-- C5 witness: the permutation clause applied to a concrete valid matrix
with the identity permutation. -/
theorem C5_equals_spec_witness :
    equals (matPerm permFixture (fun i => i)) permFixture = true :=
  (C5_equals_spec.2.2.2 permFixture (fun i => i) (by decide)
    Function.bijective_id).mpr (fun _ => rfl)

/-- C8 witness: the header rules applied at concrete inputs — a comment
line skipped before a concrete header, the leading-tab header of the 2x2
fixture, and the non-empty label list of a successful concrete parse. -/
theorem C8_header_rules_witness :
    seekHeader (["# x".data] ++ "a\tb".data :: [])
      = some ("a\tb".data, [])
    ∧ headerLabels ('\t' :: "a\tb".data) = headerLabels "a\tb".data
    ∧ (["a"] : List String) ≠ [] :=
  ⟨C8_header_rules.1 _ _ _ (by decide) (by decide) (by decide),
   C8_header_rules.2.1 _ (by decide),
   C8_header_rules.2.2.1 DM_1x1 ["a"] [[⟨0, 10⟩]] (by decide)⟩

/-! ## Round-trip lemmas and the round-trip claim -/

theorem valEq_trans (a b c : Val) (hb : b.den ≠ 0) (h1 : valEq a b = true)
    (h2 : valEq b c = true) : valEq a c = true := by
  simp only [valEq, decide_eq_true_eq] at h1 h2 ⊢
  have hbz : (b.den : Int) ≠ 0 := Int.natCast_ne_zero.mpr hb
  apply mul_left_cancel₀ hbz
  calc (b.den : Int) * (a.num * c.den) = (a.num * b.den) * c.den := by ring
    _ = (b.num * a.den) * c.den := by rw [h1]
    _ = (b.num * c.den) * a.den := by ring
    _ = (c.num * b.den) * a.den := by rw [h2]
    _ = (b.den : Int) * (c.num * a.den) := by ring

theorem intercalateTab_cons (x : Line) (ts : List Line) :
    ∃ rest, intercalateTab (x :: ts) = x ++ rest := by
  cases ts with
  | nil => exact ⟨[], by simp [intercalateTab]⟩
  | cons y ys => exact ⟨'\t' :: intercalateTab (y :: ys), rfl⟩

theorem mem_intercalateTab (ts : List Line) (c : Char) (hc : c ∈ intercalateTab ts) :
    c = '\t' ∨ ∃ t ∈ ts, c ∈ t := by
  induction ts with
  | nil => exact absurd hc (List.not_mem_nil c)
  | cons x xs ih =>
    cases xs with
    | nil =>
      exact Or.inr ⟨x, List.mem_cons_self x [], by simpa [intercalateTab] using hc⟩
    | cons y ys =>
      rw [show intercalateTab (x :: y :: ys) = x ++ '\t' :: intercalateTab (y :: ys)
        from rfl, List.mem_append, List.mem_cons] at hc
      rcases hc with hc | hc | hc
      · exact Or.inr ⟨x, List.mem_cons_self _ _, hc⟩
      · exact Or.inl hc
      · rcases ih hc with h | ⟨t, ht, hct⟩
        · exact Or.inl h
        · exact Or.inr ⟨t, List.mem_cons_of_mem _ ht, hct⟩

theorem splitTab_intercalate (ts : List Line) (hne : ts ≠ [])
    (hnt : ∀ t ∈ ts, '\t' ∉ t) : splitTab (intercalateTab ts) = ts := by
  induction ts with
  | nil => exact absurd rfl hne
  | cons x xs ih =>
    cases xs with
    | nil =>
      show splitTab (intercalateTab [x]) = [x]
      unfold splitTab
      exact splitOnChar_no_sep '\t' x (hnt x (List.mem_cons_self _ _))
    | cons y ys =>
      show splitTab (x ++ '\t' :: intercalateTab (y :: ys)) = x :: y :: ys
      unfold splitTab
      rw [splitOnChar_append '\t' x _ (hnt x (List.mem_cons_self _ _))]
      have := ih (by simp) (fun t ht => hnt t (List.mem_cons_of_mem _ ht))
      unfold splitTab at this
      rw [this]

theorem splitLines_joinNL (ls : List Line) (h : ∀ l ∈ ls, '\n' ∉ l) :
    splitLines (joinNL ls) = ls ++ [[]] := by
  induction ls with
  | nil => rfl
  | cons l ls ih =>
    show splitLines (l ++ '\n' :: joinNL ls) = (l :: ls) ++ [[]]
    unfold splitLines
    rw [splitOnChar_append '\n' l _ (h l (List.mem_cons_self _ _))]
    have := ih (fun t ht => h t (List.mem_cons_of_mem _ ht))
    unfold splitLines at this
    rw [this]
    rfl

theorem goodLabel_spec (l : String) (h : goodLabel l = true) :
    l.data ≠ [] ∧ stripChars l.data = l.data ∧ '\t' ∉ l.data ∧ '\n' ∉ l.data := by
  unfold goodLabel at h
  simp only [Bool.and_eq_true, Bool.not_eq_true', decide_eq_true_eq] at h
  obtain ⟨⟨⟨h1, h2⟩, h3⟩, h4⟩ := h
  refine ⟨?_, h2, h3, h4⟩
  intro hnil
  rw [hnil] at h1
  simp at h1

theorem goodLabel_head (l : String) (h : goodLabel l = true) :
    ∃ c cs, l.data = c :: cs ∧ isWs c = false := by
  obtain ⟨hne, hstrip, _, _⟩ := goodLabel_spec l h
  obtain ⟨c, cs, hcons⟩ := List.exists_cons_of_ne_nil hne
  exact ⟨c, cs, hcons, strip_self_head c cs (hcons ▸ hstrip)⟩

theorem isBlank_label_append (l : String) (h : goodLabel l = true) (rest : List Char) :
    isBlank (l.data ++ rest) = false := by
  obtain ⟨c, cs, hcons, hws⟩ := goodLabel_head l h
  rw [hcons, List.cons_append]
  simp [isBlank, hws]

theorem isBlank_rowLine (l : String) (row : List Val) (h : goodLabel l = true) :
    isBlank (rowLine l row) = false := by
  unfold rowLine
  obtain ⟨rest, hrest⟩ := intercalateTab_cons l.data (row.map showValue)
  rw [hrest]
  exact isBlank_label_append l h rest

theorem splitTab_rowLine (l : String) (row : List Val) (hl : goodLabel l = true) :
    splitTab (rowLine l row) = l.data :: row.map showValue := by
  unfold rowLine
  apply splitTab_intercalate
  · simp
  · intro t ht
    rw [List.mem_cons] at ht
    rcases ht with ht | ht
    · subst ht
      exact (goodLabel_spec l hl).2.2.1
    · rw [List.mem_map] at ht
      obtain ⟨v, _, hv⟩ := ht
      subst hv
      intro hmem
      exact absurd rfl (showChars_props _ (showValue_chars v _ hmem)).2.1

theorem parseValues_map_show (row : List Val) (hdec : ∀ v ∈ row, isDecimal v = true) :
    ∃ vs, parseValues (row.map showValue) = some vs ∧ eqVals vs row = true
      ∧ vs.length = row.length ∧ ∀ w ∈ vs, w.den ≠ 0 := by
  induction row with
  | nil => exact ⟨[], rfl, rfl, rfl, by simp⟩
  | cons v rest ih =>
    obtain ⟨vs, hvs, hev, hlen, hden⟩ := ih (fun x hx => hdec x (List.mem_cons_of_mem _ hx))
    obtain ⟨w, hw, hwv, hwden⟩ := parseValue_showValue v (hdec v (List.mem_cons_self _ _))
    refine ⟨w :: vs, ?_, ?_, by simp [hlen], ?_⟩
    · simp only [List.map_cons, parseValues, hw, hvs]
    · simp [eqVals, hwv, hev]
    · intro x hx
      rw [List.mem_cons] at hx
      rcases hx with hx | hx
      · subst hx
        exact hwden
      · exact hden x hx

theorem parseRow_rowLine (n : Nat) (l : String) (row : List Val)
    (hl : goodLabel l = true) (hrl : row.length = n)
    (hdec : ∀ v ∈ row, isDecimal v = true) :
    ∃ row2, parseRow n l (rowLine l row) = .ok row2 ∧ eqVals row2 row = true
      ∧ row2.length = n ∧ ∀ w ∈ row2, w.den ≠ 0 := by
  obtain ⟨vs, hvs, hev, hlen, hden⟩ := parseValues_map_show row hdec
  refine ⟨vs, ?_, hev, by omega, hden⟩
  unfold parseRow
  rw [splitTab_rowLine l row hl]
  simp only [List.headD_cons, List.tail_cons]
  rw [(goodLabel_spec l hl).2.1]
  rw [if_neg (fun hh => hh rfl)]
  rw [if_neg (by simp [List.length_map, hrl])]
  rw [if_neg (by simp [List.length_map, hrl])]
  rw [hvs]

theorem parseRowsGo_rowLines (n : Nat) (ls : List String) :
    ∀ (rs : List (List Val)),
      ls.length = rs.length → (∀ l ∈ ls, goodLabel l = true) →
      (∀ r ∈ rs, r.length = n) → (∀ r ∈ rs, ∀ v ∈ r, isDecimal v = true) →
      ∃ g, parseRowsGo n ls (rowLines ls rs ++ [[]]) = .ok g ∧ eqGrid g rs = true
        ∧ g.length = rs.length ∧ (∀ r ∈ g, r.length = n) ∧
          (∀ r ∈ g, ∀ v ∈ r, v.den ≠ 0) := by
  induction ls with
  | nil =>
    intro rs hlen _ _ _
    have hrs : rs = [] := by
      cases rs with
      | nil => rfl
      | cons r rest => simp at hlen
    subst hrs
    refine ⟨[], ?_, rfl, rfl, by simp, by simp⟩
    show parseRowsGo n [] ([] ++ [[]]) = .ok []
    simp [parseRowsGo, isBlank]
  | cons l ls ih =>
    intro rs hlen hgl hrlen hdec
    cases rs with
    | nil => simp at hlen
    | cons r rest =>
      obtain ⟨row2, hrow, hev, hrowlen, hrowden⟩ :=
        parseRow_rowLine n l r (hgl l (List.mem_cons_self _ _))
          (hrlen r (List.mem_cons_self _ _)) (hdec r (List.mem_cons_self _ _))
      obtain ⟨g, hg, hge, hglen2, hgrows, hgden⟩ := ih rest (by simpa using hlen)
        (fun x hx => hgl x (List.mem_cons_of_mem _ hx))
        (fun x hx => hrlen x (List.mem_cons_of_mem _ hx))
        (fun x hx => hdec x (List.mem_cons_of_mem _ hx))
      refine ⟨row2 :: g, ?_, ?_, by simp [hglen2], ?_, ?_⟩
      · show parseRowsGo n (l :: ls) ((rowLine l r :: rowLines ls rest) ++ [[]]) = _
        rw [List.cons_append]
        simp only [parseRowsGo, isBlank_rowLine l r (hgl l (List.mem_cons_self _ _)),
          Bool.false_eq_true, if_neg, not_false_iff]
        rw [hrow, hg]
      · simp [eqGrid, hev, hge]
      · intro x hx
        rw [List.mem_cons] at hx
        rcases hx with hx | hx
        · subst hx
          exact hrowlen
        · exact hgrows x hx
      · intro x hx
        rw [List.mem_cons] at hx
        rcases hx with hx | hx
        · subst hx
          exact hrowden
        · exact hgden x hx

theorem goodLabels_spec (ls : List String) (h : goodLabels ls = true) :
    (∀ l ∈ ls, goodLabel l = true) ∧ (ls.headD "").data.headD ' ' ≠ '#' := by
  unfold goodLabels at h
  simp only [Bool.and_eq_true, List.all_eq_true, decide_eq_true_eq] at h
  exact h

theorem headerLabels_headerLine (ls : List String) (hne : ls ≠ [])
    (hgl : ∀ l ∈ ls, goodLabel l = true) :
    headerLabels (headerLine ls) = ls := by
  unfold headerLabels headerLine
  have htabs : ∀ t ∈ ls.map String.data, '\t' ∉ t := by
    intro t ht
    rw [List.mem_map] at ht
    obtain ⟨l, hl, hteq⟩ := ht
    subst hteq
    exact (goodLabel_spec l (hgl l hl)).2.2.1
  have h1 : splitTab ('\t' :: intercalateTab (ls.map String.data))
      = [] :: ls.map String.data := by
    unfold splitTab
    rw [show splitOnChar '\t' ('\t' :: intercalateTab (ls.map String.data))
      = [] :: splitOnChar '\t' (intercalateTab (ls.map String.data)) from by
        simp [splitOnChar]]
    have := splitTab_intercalate (ls.map String.data) (by simpa using hne) htabs
    unfold splitTab at this
    rw [this]
  rw [h1]
  simp only [List.map_cons, List.map_map]
  have h2 : List.map ((fun t => String.mk (stripChars t)) ∘ String.data) ls = ls := by
    have hcongr : ∀ l ∈ ls, ((fun t => String.mk (stripChars t)) ∘ String.data) l = l := by
      intro l hl
      show String.mk (stripChars l.data) = l
      rw [(goodLabel_spec l (hgl l hl)).2.1]
    calc List.map ((fun t => String.mk (stripChars t)) ∘ String.data) ls
        = List.map id ls := List.map_congr_left hcongr
      _ = ls := List.map_id ls
  rw [h2]
  show dropLeadingEmpty ("" :: ls) = ls
  simp [dropLeadingEmpty]

theorem headerLine_not_blank (ls : List String) (l0 : String) (ls' : List String)
    (hcons : ls = l0 :: ls') (hgl : ∀ l ∈ ls, goodLabel l = true) :
    isBlank (headerLine ls) = false := by
  subst hcons
  unfold headerLine
  obtain ⟨c, cs, hc, hws⟩ := goodLabel_head l0 (hgl l0 (List.mem_cons_self _ _))
  simp only [List.map_cons]
  obtain ⟨rest, hrest⟩ := intercalateTab_cons l0.data (ls'.map String.data)
  rw [hrest, hc, List.cons_append]
  simp [isBlank, hws]

theorem headerLine_not_comment (ls : List String) (l0 : String) (ls' : List String)
    (hcons : ls = l0 :: ls') (hgl : ∀ l ∈ ls, goodLabel l = true)
    (hhash : l0.data.headD ' ' ≠ '#') :
    isComment (headerLine ls) = false := by
  subst hcons
  unfold headerLine isComment
  obtain ⟨c, cs, hc, hws⟩ := goodLabel_head l0 (hgl l0 (List.mem_cons_self _ _))
  obtain ⟨rest, hrest⟩ := intercalateTab_cons l0.data (ls'.map String.data)
  have hdw : List.dropWhile isWs ('\t' :: (c :: (cs ++ rest))) = c :: (cs ++ rest) := by
    rw [List.dropWhile_cons, if_pos (by decide : isWs '\t' = true)]
    rw [List.dropWhile_cons, if_neg (by simp [hws])]
  rw [hc] at hhash
  simp only [List.headD_cons] at hhash
  simp only [List.map_cons, hrest]
  simp only [hc, List.cons_append, hdw, List.headD_cons]
  simp [hhash]

theorem rowLines_mem (ls : List String) : ∀ (rs : List (List Val)) (x : Line),
    x ∈ rowLines ls rs → ∃ l r, l ∈ ls ∧ r ∈ rs ∧ x = rowLine l r := by
  induction ls with
  | nil =>
    intro rs x hx
    exfalso
    cases rs <;> simp [rowLines] at hx
  | cons l ls ih =>
    intro rs x hx
    cases rs with
    | nil => simp [rowLines] at hx
    | cons r rest =>
      rw [show rowLines (l :: ls) (r :: rest) = rowLine l r :: rowLines ls rest from rfl,
        List.mem_cons] at hx
      rcases hx with hx | hx
      · exact ⟨l, r, List.mem_cons_self _ _, List.mem_cons_self _ _, hx⟩
      · obtain ⟨a, b, ha, hb, heq⟩ := ih rest x hx
        exact ⟨a, b, List.mem_cons_of_mem _ ha, List.mem_cons_of_mem _ hb, heq⟩

theorem serialize_no_newline (M : DissimilarityMatrix)
    (hgl : ∀ l ∈ M.labels, goodLabel l = true) :
    ∀ x ∈ serializeLines M, '\n' ∉ x := by
  intro x hx
  unfold serializeLines at hx
  rw [List.mem_cons] at hx
  rcases hx with hx | hx
  · subst hx
    intro hmem
    unfold headerLine at hmem
    rw [List.mem_cons] at hmem
    rcases hmem with h | h
    · exact absurd h (by decide)
    · rcases mem_intercalateTab _ _ h with h2 | ⟨t, ht, hct⟩
      · exact absurd h2 (by decide)
      · rw [List.mem_map] at ht
        obtain ⟨l, hl, hteq⟩ := ht
        subst hteq
        exact (goodLabel_spec l (hgl l hl)).2.2.2 hct
  · obtain ⟨l, r, hl, _, hxeq⟩ := rowLines_mem _ _ x hx
    subst hxeq
    intro hmem
    unfold rowLine at hmem
    rcases mem_intercalateTab _ _ hmem with h2 | ⟨t, ht, hct⟩
    · exact absurd h2 (by decide)
    · rw [List.mem_cons] at ht
      rcases ht with ht | ht
      · subst ht
        exact (goodLabel_spec l (hgl l hl)).2.2.2 hct
      · rw [List.mem_map] at ht
        obtain ⟨v, _, hteq⟩ := ht
        subst hteq
        exact absurd rfl (showChars_props _ (showValue_chars v _ hct)).2.2

theorem hollow_transfer (g m : List (List Val)) (n : Nat)
    (hglen : g.length = n) (hmlen : m.length = n)
    (hgrows : ∀ r ∈ g, r.length = n) (hmrows : ∀ r ∈ m, r.length = n)
    (he : eqGrid g m = true) (hfin : FiniteGrid m) (hm : Hollow m) : Hollow g := by
  intro i hig
  have him : i < m.length := by omega
  obtain ⟨hlen, hptw⟩ := (eqGrid_iff g m).mp he
  have hgrow : i < (g.get ⟨i, hig⟩).length := by
    rw [hgrows _ (List.get_mem _ _ _)]
    omega
  have hmrow : i < (m.get ⟨i, him⟩).length := by
    rw [hmrows _ (List.get_mem _ _ _)]
    omega
  have h1 : valEq (valAt g i i) (valAt m i i) = true := by
    rw [valAt_eq_get g i i hig hgrow, valAt_eq_get m i i him hmrow]
    exact (hptw i hig him).2 i hgrow hmrow
  have hden : (valAt m i i).den ≠ 0 := by
    rw [valAt_eq_get m i i him hmrow]
    exact hfin _ (List.get_mem _ _ _) _ (List.get_mem _ _ _)
  exact valEq_trans _ _ _ hden h1 (hm i him)

/-- C1 (amended): serializing a valid matrix and parsing the text back
yields a matrix equal to the original, provided every label is non-empty,
unchanged by whitespace stripping and free of tab and newline characters,
the first label does not begin with the comment character, and every grid
value is exactly representable in decimal (as every value of the source's
binary floating-point domain is). -/
theorem C1_round_trip_amended (M : DissimilarityMatrix) (hv : validB M = true)
    (hl : goodLabels M.labels = true) (hd : decimalGrid M.grid = true) :
    ∃ M2, dm_to_DissimilarityMatrix (serialize M) = .ok M2 ∧ equals M2 M = true := by
  have hinv := (constructDissim_isOk_iff M.labels M.grid).mp hv
  obtain ⟨hn, ⟨hglen, hrows⟩, hfin, hhol, hnd⟩ := hinv
  obtain ⟨hall, hhash⟩ := goodLabels_spec M.labels hl
  have hlsne : M.labels ≠ [] := by
    intro hh
    rw [hh] at hn
    simp at hn
  obtain ⟨l0, ls', hcons⟩ := List.exists_cons_of_ne_nil hlsne
  have hdecg : ∀ r ∈ M.grid, ∀ v ∈ r, isDecimal v = true := by
    unfold decimalGrid at hd
    simp only [List.all_eq_true] at hd
    exact hd
  obtain ⟨g, hg, hge, hglen2, hgrows, hgden⟩ :=
    parseRowsGo_rowLines M.labels.length M.labels M.grid (by omega) hall hrows hdecg
  have hsplit : splitLines (serialize M).data = serializeLines M ++ [[]] :=
    splitLines_joinNL _ (serialize_no_newline M hall)
  have hhash0 : l0.data.headD ' ' ≠ '#' := by
    rw [hcons] at hhash
    simpa using hhash
  have hparse : parse (serialize M) = .ok (M.labels, g) := by
    unfold parse
    rw [hsplit]
    unfold parseLines
    rw [show serializeLines M ++ [[]]
      = headerLine M.labels :: (rowLines M.labels M.grid ++ [[]]) from rfl]
    have hcond : (isBlank (headerLine M.labels) || isComment (headerLine M.labels))
        = false := by
      rw [headerLine_not_blank M.labels l0 ls' hcons hall,
        headerLine_not_comment M.labels l0 ls' hcons hall hhash0]
      rfl
    simp only [seekHeader, hcond, Bool.false_eq_true, if_neg, not_false_iff]
    rw [headerLabels_headerLine M.labels hlsne hall]
    rw [if_neg (by simp [hlsne])]
    rw [hg]
  unfold dm_to_DissimilarityMatrix
  rw [hparse]
  show ∃ M2, constructDissim M.labels g = .ok M2 ∧ equals M2 M = true
  have hinv2 : DissimInv M.labels g := by
    refine ⟨hn, ⟨by omega, fun r hr => hgrows r hr⟩,
      fun r hr v hv2 => hgden r hr v hv2, ?_, hnd⟩
    exact hollow_transfer g M.grid M.labels.length (by omega) hglen hgrows hrows
      hge hfin hhol
  have hok := (constructDissim_isOk_iff M.labels g).mpr hinv2
  cases hcc : constructDissim M.labels g with
  | error e =>
    rw [hcc] at hok
    exact absurd hok (by simp [isOk])
  | ok M2 =>
    refine ⟨M2, rfl, ?_⟩
    rw [constructDissim_ok_shape _ _ _ hcc]
    apply (equals_iff _ _).mpr
    exact ⟨rfl, (eqGrid_iff _ _).mp hge⟩

/-- C1 counterexample: the claim as stated only excludes tab and newline
characters from labels, but serializing the valid matrix with the single
label "#" produces a text whose lines are all read as comments, so parsing
it back fails rather than reconstructing the matrix. -/
theorem C1_counterexample :
    validB ⟨["#"], [[valZero]]⟩ = true
    ∧ (∀ l ∈ (⟨["#"], [[valZero]]⟩ : DissimilarityMatrix).labels,
        '\t' ∉ l.data ∧ '\n' ∉ l.data)
    ∧ ¬ ∃ M2, dm_to_DissimilarityMatrix (serialize ⟨["#"], [[valZero]]⟩) = .ok M2
        ∧ equals M2 ⟨["#"], [[valZero]]⟩ = true := by
  refine ⟨by decide, by decide, ?_⟩
  rintro ⟨M2, hM2, _⟩
  rw [show dm_to_DissimilarityMatrix (serialize ⟨["#"], [[valZero]]⟩)
    = .error (.format .emptyInput) from by decide] at hM2
  exact Except.noConfusion hM2

/-- C1 witness: the amended round trip applied to a concrete valid
matrix. -/
theorem C1_round_trip_amended_witness :
    ∃ M2, dm_to_DissimilarityMatrix (serialize permFixture) = .ok M2
      ∧ equals M2 permFixture = true :=
  C1_round_trip_amended permFixture (by decide) (by decide) (by decide)

end Skbio
